import Mathlib

/-!
Shallow embedding of the fund-vs-benchmark dashboard script
(`fund_vs_benchmark.py`) and verification of the specified properties of
its analytics pipeline.

Prices are modelled as exact rationals.  A raw (pre-cleaning) price table
is a list of ticker-named columns whose entries may be missing (`none`
stands for pandas `NaN`); a cleaned table has no missing entries.  The
pandas operations used by the script (`ffill`, `dropna`, `iloc`, `std`,
`cumprod`, `cummax`, `min`, `pct_change`, `np.percentile`) are embedded by
their documented semantics.  Values that pandas/numpy leave undefined
(`NaN` results, or calls that raise, such as `np.percentile` on an empty
array) are modelled as `none`.
-/

/-- Half-to-even rounding of a rational to the nearest integer: the tie
rule numpy and pandas use in `Series.round`. -/
def roundHalfEven (q : ℚ) : ℤ :=
  let f := ⌊q⌋
  let r := q - f
  if r < 1/2 then f
  else if 1/2 < r then f + 1
  else if f % 2 = 0 then f else f + 1

/-- Rounding to two decimal places: the `.round(2)` call of the script. -/
def round2 (q : ℚ) : ℚ := (roundHalfEven (q * 100) : ℚ) / 100

/-- Raw downloaded price table (the `Close` level of `yf.download`):
ticker-named columns over a shared row index, entries possibly missing. -/
structure RawFrame where
  cols : List (String × List (Option ℚ))

/-- Cleaned price table (`price_data` after `ffill().dropna()`): every
retained row has a value for every column. -/
structure Frame where
  cols : List (String × List ℚ)

/-- Number of rows of a raw frame (all columns share the row index). -/
def RawFrame.nRows (f : RawFrame) : ℕ :=
  ((f.cols.head?).map (fun c => c.2.length)).getD 0

/-- Pandas `DataFrame.empty`: true when either axis has length zero. -/
def RawFrame.isEmpty (f : RawFrame) : Bool :=
  f.cols.isEmpty || f.nRows == 0

/-- Forward fill of one column, carrying the last known value over
missing entries (`Series.ffill`). -/
def ffillCol : Option ℚ → List (Option ℚ) → List (Option ℚ)
  | _, [] => []
  | _, some x :: rest => some x :: ffillCol (some x) rest
  | last, none :: rest => last :: ffillCol last rest

/-- `DataFrame.ffill`: forward fill every column. -/
def RawFrame.ffill (f : RawFrame) : RawFrame :=
  ⟨f.cols.map (fun c => (c.1, ffillCol none c.2))⟩

/-- Row `i` is complete: every column has a value there. -/
def keepRow (f : RawFrame) (i : ℕ) : Bool :=
  f.cols.all (fun c => (c.2.getD i none).isSome)

/-- `DataFrame.dropna()`: keep exactly the complete rows. -/
def RawFrame.dropna (f : RawFrame) : Frame :=
  let keep := (List.range f.nRows).filter (fun i => keepRow f i)
  ⟨f.cols.map (fun c => (c.1, keep.map (fun i => (c.2.getD i none).getD 0)))⟩

/-- The cleaning step of the script: `price_data.ffill().dropna()`. -/
def alignAndClean (f : RawFrame) : Frame := f.ffill.dropna

/-- Number of rows of a cleaned frame. -/
def Frame.nRows (f : Frame) : ℕ :=
  ((f.cols.head?).map (fun c => c.2.length)).getD 0

/-- Column selection `price_data[t]` (empty series when absent). -/
def Frame.col (f : Frame) (t : String) : List ℚ :=
  (((f.cols.find? (fun c => c.1 == t))).map (fun c => c.2)).getD []

/-- Normalization of one series: `series / series.iloc[0] * 100`. -/
def normCol (ps : List ℚ) : List ℚ :=
  ps.map (fun p => p / ps.headD 0 * 100)

/-- The script's `norm_data = price_data / start_prices * 100`:
column-wise normalization to base 100. -/
def norm_data (f : Frame) : Frame :=
  ⟨f.cols.map (fun c => (c.1, normCol c.2))⟩

/-- Percentage return of one series:
`(iloc[-1] - iloc[0]) / iloc[0] * 100`, rounded to 2 decimals. -/
def returnCol (ps : List ℚ) : ℚ :=
  round2 ((ps.getLastD 0 - ps.headD 0) / ps.headD 0 * 100)

/-- The script's `returns = ((end_prices - start_prices) / start_prices *
100).round(2)` applied to every column. -/
def snapshot_returns (f : Frame) : List (String × ℚ) :=
  f.cols.map (fun c => (c.1, returnCol c.2))

/-- Daily simple returns: the script's `pct_change().dropna()` on a
gap-free series, pairing each price with its successor:
`r[i] = price[i+1] / price[i] - 1`. -/
def daily_returns (ps : List ℚ) : List ℚ :=
  (ps.zip ps.tail).map (fun p => p.2 / p.1 - 1)

/-- Mean of a series (pandas `Series.mean`). -/
def seriesMean (xs : List ℚ) : ℚ := xs.sum / xs.length

/-- Bessel-corrected sample variance, divisor `count - 1` (pandas default
`ddof = 1`). -/
def sampleVar (xs : List ℚ) : ℚ :=
  (xs.map (fun x => (x - seriesMean xs) ^ 2)).sum / ((xs.length : ℚ) - 1)

/-- Pandas `Series.std()` with `ddof = 1`: `NaN` (modelled `none`) on
fewer than two observations, else the sample standard deviation. -/
noncomputable def seriesStd (xs : List ℚ) : Option ℝ :=
  if xs.length < 2 then none else some (Real.sqrt (sampleVar xs))

/-- The script's `volatility = daily_returns.std() * np.sqrt(252) * 100`. -/
noncomputable def volatility (ps : List ℚ) : Option ℝ :=
  (seriesStd (daily_returns ps)).map (fun s => s * Real.sqrt 252 * 100)

/-- Running product with accumulator (pandas `cumprod`). -/
def cumprodAux : ℚ → List ℚ → List ℚ
  | _, [] => []
  | acc, x :: rest => (acc * x) :: cumprodAux (acc * x) rest

/-- The script's `cum_returns = (1 + daily_returns).cumprod()` applied to
a return series. -/
def cum_returns (r : List ℚ) : List ℚ :=
  cumprodAux 1 (r.map (fun x => 1 + x))

/-- Running maximum with accumulator. -/
def cummaxAux : ℚ → List ℚ → List ℚ
  | _, [] => []
  | m, x :: rest => (max m x) :: cummaxAux (max m x) rest

/-- Pandas `cummax`. -/
def cummax : List ℚ → List ℚ
  | [] => []
  | x :: rest => x :: cummaxAux x rest

/-- The script's `drawdowns = (cum_returns - cum_max) / cum_max`,
element-wise over the running product and its running maximum. -/
def drawdowns (r : List ℚ) : List ℚ :=
  ((cum_returns r).zip (cummax (cum_returns r))).map (fun p => (p.1 - p.2) / p.2)

/-- Pandas `Series.min()`: `NaN` (modelled `none`) on an empty series. -/
def seriesMin (xs : List ℚ) : Option ℚ :=
  match xs with
  | [] => none
  | x :: rest => some (rest.foldl min x)

/-- The script's `max_drawdown = drawdowns.min() * 100`, from the fund's
price series. -/
def max_drawdown (ps : List ℚ) : Option ℚ :=
  (seriesMin (drawdowns (daily_returns ps))).map (fun d => d * 100)

/-- Insertion into a sorted list. -/
def insertSorted (x : ℚ) : List ℚ → List ℚ
  | [] => [x]
  | y :: rest => if x ≤ y then x :: y :: rest else y :: insertSorted x rest

/-- Sorting of the observations (numpy sorts the data before
interpolating a percentile). -/
def sortList (xs : List ℚ) : List ℚ := xs.foldr insertSorted []

/-- Numpy `np.percentile(xs, q)` with the default linear-interpolation
method: virtual position `q/100 * (n-1)` between the sorted order
statistics, result `x[floor] + (x[ceil] - x[floor]) * fract`.  Numpy
raises on an empty input, modelled as `none`. -/
def npPercentile (q : ℚ) (xs : List ℚ) : Option ℚ :=
  if xs.isEmpty then none
  else
    let s := sortList xs
    let pos : ℚ := q / 100 * ((s.length : ℚ) - 1)
    some (s.getD (⌊pos⌋).toNat 0 +
      (s.getD (⌈pos⌉).toNat 0 - s.getD (⌊pos⌋).toNat 0) * (pos - ⌊pos⌋))

/-- The script's `VaR_95 = np.percentile(daily_returns, 5) * 100`. -/
def VaR_95 (ps : List ℚ) : Option ℚ :=
  (npPercentile 5 (daily_returns ps)).map (fun v => v * 100)

/-- The fund-only risk snapshot the script computes: annualized
volatility, maximum drawdown, 95% 1-day VaR. -/
noncomputable def riskMetrics (ps : List ℚ) : Option ℝ × Option ℚ × Option ℚ :=
  (volatility ps, max_drawdown ps, VaR_95 ps)

/-- Fifth percentile by linear interpolation between order statistics,
written after the specification text: with the n observations sorted as
x[0 .. n-1], position h = (n - 1) * 5 / 100, k = floor h, result
x[k] + (h - k) * (x[min (k+1) (n-1)] - x[k]). -/
def specPercentile5 (xs : List ℚ) : Option ℚ :=
  if xs.isEmpty then none
  else
    some ((sortList xs).getD (⌊(((sortList xs).length : ℚ) - 1) * 5 / 100⌋).toNat 0 +
      ((((sortList xs).length : ℚ) - 1) * 5 / 100 -
        ((⌊(((sortList xs).length : ℚ) - 1) * 5 / 100⌋).toNat : ℚ)) *
      ((sortList xs).getD
          (min ((⌊(((sortList xs).length : ℚ) - 1) * 5 / 100⌋).toNat + 1)
            ((sortList xs).length - 1)) 0 -
        (sortList xs).getD (⌊(((sortList xs).length : ℚ) - 1) * 5 / 100⌋).toNat 0))

/-- Calendar date (pandas `Timestamp`, date part). -/
structure Date where
  year : ℤ
  month : ℕ
  day : ℕ

/-- Gregorian leap-year rule. -/
def isLeap (y : ℤ) : Bool :=
  (y % 4 == 0 && y % 100 != 0) || (y % 400 == 0)

/-- Days in a month. -/
def daysInMonth (y : ℤ) (m : ℕ) : ℕ :=
  if m = 2 then (if isLeap y then 29 else 28)
  else if m = 4 ∨ m = 6 ∨ m = 9 ∨ m = 11 then 30
  else 31

/-- `today - pd.DateOffset(years=n)`: same month and day with the year
shifted, the day clamped to the target month's length (Feb 29 rolls back
to Feb 28 in a non-leap year). -/
def subYears (d : Date) (n : ℤ) : Date :=
  ⟨d.year - n, d.month, min d.day (daysInMonth (d.year - n) d.month)⟩

/-- The script's horizon dispatch choosing the fetch start date. -/
def startDate (today : Date) (horizon : String) : Date :=
  if horizon = "YTD" then ⟨today.year, 1, 1⟩
  else if horizon = "1Y" then subYears today 1
  else if horizon = "3Y" then subYears today 3
  else if horizon = "5Y" then subYears today 5
  else ⟨today.year, 1, 1⟩

/-- The [start, end] range handed to the price fetch: `end = today`. -/
def fetchRange (today : Date) (horizon : String) : Date × Date :=
  (startDate today horizon, today)

/-- Outcome of one run of the script's compute pass: an `st.stop()` after
an error message (no data at all, or a required ticker missing), an
unhandled exception (`iloc[0]` on an empty cleaned table), or a rendered
dashboard (returns snapshot, normalized table, risk snapshot). -/
inductive Outcome where
  | stoppedNoData : Outcome
  | stoppedMissing : List String → Outcome
  | crashed : Outcome
  | rendered : List (String × ℚ) → Frame → Option ℝ × Option ℚ × Option ℚ → Outcome

/-- The script's `missing = [t for t in tickers if t not in available]`. -/
def missingOf (tickers : List String) (d : RawFrame) : List String :=
  tickers.filter (fun t => !(((alignAndClean d).cols.map Prod.fst).contains t))

/-- Whether the run stopped with a data-unavailability error (the two
`st.error` + `st.stop` paths of the script). -/
def Outcome.isDataUnavailableStop : Outcome → Bool
  | Outcome.stoppedNoData => true
  | Outcome.stoppedMissing _ => true
  | _ => false

/-- The script's compute pass, line order preserved: empty-download
check, clean, missing-ticker check, then returns, normalization and the
fund's risk metrics.  A cleaned table with zero rows but both columns
present passes the missing-ticker check and then raises IndexError at
`price_data.iloc[0]`, modelled as `crashed`. -/
noncomputable def runScript (tickers : List String) (d : RawFrame) : Outcome :=
  if d.isEmpty then Outcome.stoppedNoData
  else if !(missingOf tickers d).isEmpty then
    Outcome.stoppedMissing (missingOf tickers d)
  else if (alignAndClean d).nRows = 0 then Outcome.crashed
  else
    Outcome.rendered (snapshot_returns (alignAndClean d))
      (norm_data (alignAndClean d))
      (riskMetrics ((alignAndClean d).col (tickers.headD "")))

/-- Head of a normalized non-empty series with non-zero first value is
exactly 100. -/
theorem normCol_head (ps : List ℚ) (hne : ps ≠ []) (hpos : 0 < ps.headD 0) :
    (normCol ps).head? = some 100 := by
  cases ps with
  | nil => exact absurd rfl hne
  | cons p rest =>
    simp only [normCol, List.map_cons, List.head?_cons, List.headD_cons,
      Option.some.injEq]
    rw [div_self (ne_of_gt (by simpa using hpos))]
    norm_num

/-- C1: for every aligned, non-empty price table (every column non-empty
with positive first value), the normalized table `norm_data` has value
exactly 100 at the first date in every instrument's column. -/
theorem C1_norm_first_is_100 (f : Frame)
    (hf : ∀ c ∈ f.cols, c.2 ≠ [] ∧ 0 < c.2.headD 0) :
    ∀ c ∈ (norm_data f).cols, c.2.head? = some 100 := by
  intro c hc
  simp only [norm_data, List.mem_map] at hc
  obtain ⟨a, ha, rfl⟩ := hc
  obtain ⟨hne, hpos⟩ := hf a ha
  exact normCol_head a.2 hne hpos

/-- Witness for C1 on a concrete two-column table: both the fund column
and the benchmark column of the normalized table start at 100. -/
theorem C1_witness :
    (("F", normCol [(50 : ℚ), 55, 60]) : String × List ℚ).2.head? = some 100 ∧
    (("B", normCol [(200 : ℚ), 190]) : String × List ℚ).2.head? = some 100 := by
  constructor
  · refine C1_norm_first_is_100 ⟨[("F", [50, 55, 60]), ("B", [200, 190])]⟩
      (by decide) _ ?_
    show ("F", normCol [(50 : ℚ), 55, 60]) ∈
      [("F", normCol [(50 : ℚ), 55, 60]), ("B", normCol [(200 : ℚ), 190])]
    exact List.mem_cons_self _ _
  · refine C1_norm_first_is_100 ⟨[("F", [50, 55, 60]), ("B", [200, 190])]⟩
      (by decide) _ ?_
    show ("B", normCol [(200 : ℚ), 190]) ∈
      [("F", normCol [(50 : ℚ), 55, 60]), ("B", normCol [(200 : ℚ), 190])]
    exact List.mem_cons_of_mem _ (List.mem_cons_self _ _)

/-- Last element of a normalized series. -/
theorem normCol_getLast (ps : List ℚ) (hne : ps ≠ []) :
    (normCol ps).getLastD 0 = ps.getLastD 0 / ps.headD 0 * 100 := by
  cases ps with
  | nil => exact absurd rfl hne
  | cons p rest =>
    simp only [normCol, List.getLastD_eq_getLast?, List.getLast?_map]
    cases h : (p :: rest).getLast? with
    | none => simp [List.getLast?_isSome] at h
    | some v => simp

/-- One-series form of C2: the rounded raw-price return equals the rounded
(last normalized value − 100). -/
theorem returnCol_eq_norm (ps : List ℚ) (hne : ps ≠ [])
    (hpos : 0 < ps.headD 0) :
    returnCol ps = round2 ((normCol ps).getLastD 0 - 100) := by
  rw [returnCol, normCol_getLast ps hne]
  congr 1
  have h0 : ps.head?.getD 0 ≠ 0 := by
    have h1 := ne_of_gt hpos
    simpa [List.headD_eq_head?] using h1
  simp only [List.headD_eq_head?, List.getLastD_eq_getLast?]
  field_simp
  ring

/-- C2: for every valid non-degenerate aligned price table (every column
non-empty with positive first value), the script's rounded percentage
returns `(last − first)/first × 100` agree, instrument by instrument, with
the value derived from the normalized series as `(last normalized − 100)`
rounded identically. -/
theorem C2_returns_agree_with_norm (f : Frame)
    (hf : ∀ c ∈ f.cols, c.2 ≠ [] ∧ 0 < c.2.headD 0) :
    snapshot_returns f =
      (norm_data f).cols.map (fun c => (c.1, round2 (c.2.getLastD 0 - 100))) := by
  simp only [snapshot_returns, norm_data, List.map_map]
  apply List.map_congr_left
  intro a ha
  obtain ⟨hne, hpos⟩ := hf a ha
  simp only [Function.comp]
  rw [returnCol_eq_norm a.2 hne hpos]

/-- Witness for C2 on a concrete two-column table. -/
theorem C2_witness :
    snapshot_returns ⟨[("F", [80, 95, 92]), ("B", [400, 410])]⟩ =
      (norm_data ⟨[("F", [80, 95, 92]), ("B", [400, 410])]⟩).cols.map
        (fun c => (c.1, round2 (c.2.getLastD 0 - 100))) :=
  C2_returns_agree_with_norm ⟨[("F", [80, 95, 92]), ("B", [400, 410])]⟩ (by decide)

/-- Unfolding of `daily_returns` on two leading elements. -/
theorem daily_returns_cons (a b : ℚ) (r : List ℚ) :
    daily_returns (a :: b :: r) = (b / a - 1) :: daily_returns (b :: r) := rfl

/-- A series of n prices yields n - 1 return observations. -/
theorem daily_returns_length (ps : List ℚ) :
    (daily_returns ps).length = ps.length - 1 := by
  simp only [daily_returns, List.length_map, List.length_zip, List.length_tail]
  omega

/-- Index formula for the daily returns. -/
theorem daily_returns_getD (ps : List ℚ) :
    ∀ i, i + 1 < ps.length →
      (daily_returns ps).getD i 0 = ps.getD (i + 1) 0 / ps.getD i 0 - 1 := by
  induction ps with
  | nil => intro i hi; simp at hi
  | cons a rest ih =>
    intro i hi
    cases rest with
    | nil => simp at hi
    | cons b r2 =>
      cases i with
      | zero => simp [daily_returns_cons]
      | succ k =>
        have hk : k + 1 < (b :: r2).length := by
          simp only [List.length_cons] at hi ⊢
          omega
        rw [daily_returns_cons]
        simp only [List.getD_cons_succ]
        exact ih k hk

/-- C5: for a price series of length n ≥ 2 with positive prices, the
daily simple returns are `r[i] = price[i+1]/price[i] - 1` (n - 1
observations), and the annualized volatility is the Bessel-corrected
sample standard deviation of r (divisor count - 1) times sqrt 252 times
100 (undefined, `none`, when fewer than two return observations exist,
mirroring the pandas `NaN`). -/
theorem C5_returns_and_volatility (ps : List ℚ)
    (hlen : 2 ≤ ps.length) (hpos : ∀ x ∈ ps, 0 < x) :
    (daily_returns ps).length = ps.length - 1 ∧
    (∀ i, i + 1 < ps.length →
      (daily_returns ps).getD i 0 = ps.getD (i + 1) 0 / ps.getD i 0 - 1) ∧
    volatility ps =
      (if 2 ≤ ps.length - 1 then
        some (Real.sqrt
          ((((daily_returns ps).map (fun x =>
              (x - (daily_returns ps).sum / ((daily_returns ps).length : ℚ)) ^ 2)).sum /
            (((daily_returns ps).length : ℚ) - 1) : ℚ)) *
          Real.sqrt 252 * 100)
      else none) := by
  refine ⟨daily_returns_length ps, daily_returns_getD ps, ?_⟩
  rw [volatility, seriesStd]
  rcases Nat.lt_or_ge (daily_returns ps).length 2 with h | h
  · rw [if_pos h, if_neg]
    · rfl
    · rw [daily_returns_length] at h
      omega
  · rw [if_neg (by omega), if_pos (by rw [daily_returns_length] at h; omega)]
    simp [sampleVar, seriesMean]

/-- Witness for C5 on the spec's example series [100, 110, 99, 121]. -/
theorem C5_witness :
    (daily_returns [(100 : ℚ), 110, 99, 121]).length =
      [(100 : ℚ), 110, 99, 121].length - 1 ∧
    (∀ i, i + 1 < [(100 : ℚ), 110, 99, 121].length →
      (daily_returns [(100 : ℚ), 110, 99, 121]).getD i 0 =
        [(100 : ℚ), 110, 99, 121].getD (i + 1) 0 /
          [(100 : ℚ), 110, 99, 121].getD i 0 - 1) ∧
    volatility [(100 : ℚ), 110, 99, 121] =
      (if 2 ≤ [(100 : ℚ), 110, 99, 121].length - 1 then
        some (Real.sqrt
          ((((daily_returns [(100 : ℚ), 110, 99, 121]).map (fun x =>
              (x - (daily_returns [(100 : ℚ), 110, 99, 121]).sum /
                ((daily_returns [(100 : ℚ), 110, 99, 121]).length : ℚ)) ^ 2)).sum /
            (((daily_returns [(100 : ℚ), 110, 99, 121]).length : ℚ) - 1) : ℚ)) *
          Real.sqrt 252 * 100)
      else none) :=
  C5_returns_and_volatility [(100 : ℚ), 110, 99, 121] (by decide) (by decide)

/-- Every partial product of positive factors from a positive seed is
positive. -/
theorem cumprodAux_pos (xs : List ℚ) :
    ∀ acc : ℚ, 0 < acc → (∀ x ∈ xs, 0 < x) → ∀ y ∈ cumprodAux acc xs, 0 < y := by
  induction xs with
  | nil => intro acc _ _ y hy; simp [cumprodAux] at hy
  | cons x rest ih =>
    intro acc hacc hxs y hy
    rw [cumprodAux] at hy
    rcases List.mem_cons.mp hy with h | h
    · subst h
      exact mul_pos hacc (hxs x (List.mem_cons_self x rest))
    · exact ih (acc * x) (mul_pos hacc (hxs x (List.mem_cons_self x rest)))
        (fun z hz => hxs z (List.mem_cons_of_mem x hz)) y h

/-- Each element is bounded by the corresponding running maximum. -/
theorem cummaxAux_forall2 (xs : List ℚ) :
    ∀ m : ℚ, List.Forall₂ (fun a b => a ≤ b) xs (cummaxAux m xs) := by
  induction xs with
  | nil => intro m; rw [cummaxAux]; exact List.Forall₂.nil
  | cons x rest ih =>
    intro m
    rw [cummaxAux]
    exact List.Forall₂.cons (le_max_right m x) (ih (max m x))

/-- Each element is bounded by its running maximum. -/
theorem cummax_forall2 (xs : List ℚ) :
    List.Forall₂ (fun a b => a ≤ b) xs (cummax xs) := by
  cases xs with
  | nil => rw [cummax]; exact List.Forall₂.nil
  | cons x rest =>
    rw [cummax]
    exact List.Forall₂.cons le_rfl (cummaxAux_forall2 rest x)

/-- Running maxima of a positive seed stay positive. -/
theorem cummaxAux_pos (xs : List ℚ) :
    ∀ m : ℚ, 0 < m → ∀ y ∈ cummaxAux m xs, 0 < y := by
  induction xs with
  | nil => intro m _ y hy; rw [cummaxAux] at hy; simp at hy
  | cons x rest ih =>
    intro m hm y hy
    rw [cummaxAux] at hy
    rcases List.mem_cons.mp hy with h | h
    · subst h
      exact lt_max_of_lt_left hm
    · exact ih (max m x) (lt_max_of_lt_left hm) y h

/-- Running maxima of a positive series are positive. -/
theorem cummax_pos (xs : List ℚ) (hxs : ∀ x ∈ xs, 0 < x) :
    ∀ y ∈ cummax xs, 0 < y := by
  cases xs with
  | nil => intro y hy; rw [cummax] at hy; simp at hy
  | cons x rest =>
    intro y hy
    rw [cummax] at hy
    rcases List.mem_cons.mp hy with h | h
    · rw [h]
      exact hxs x (List.mem_cons_self x rest)
    · exact cummaxAux_pos rest x (hxs x (List.mem_cons_self x rest)) y h

/-- Daily returns of a positive price series exceed -1. -/
theorem daily_returns_gt_neg_one (ps : List ℚ) (hpos : ∀ x ∈ ps, 0 < x) :
    ∀ x ∈ daily_returns ps, -1 < x := by
  intro x hx
  rw [daily_returns] at hx
  obtain ⟨p, hp, rfl⟩ := List.mem_map.mp hx
  obtain ⟨a, b⟩ := p
  obtain ⟨h1, h2⟩ := List.of_mem_zip hp
  have ha : 0 < a := hpos a h1
  have hb : 0 < b := hpos b (List.mem_of_mem_tail h2)
  have hd : 0 < b / a := div_pos hb ha
  simp only
  linarith

/-- Every drawdown entry is non-positive when all returns exceed -1. -/
theorem drawdowns_nonpos (r : List ℚ) (hr : ∀ x ∈ r, -1 < x) :
    ∀ d ∈ drawdowns r, d ≤ 0 := by
  intro d hd
  rw [drawdowns] at hd
  obtain ⟨p, hp, rfl⟩ := List.mem_map.mp hd
  obtain ⟨g, m⟩ := p
  have hgpos : ∀ y ∈ cum_returns r, 0 < y := by
    intro y hy
    refine cumprodAux_pos _ 1 one_pos ?_ y hy
    intro z hz
    obtain ⟨x, hx, rfl⟩ := List.mem_map.mp hz
    linarith [hr x hx]
  have hle : g ≤ m :=
    (List.forall₂_iff_zip.mp (cummax_forall2 (cum_returns r))).2 hp
  have hmpos : 0 < m :=
    cummax_pos (cum_returns r) hgpos m (List.of_mem_zip hp).2
  simp only
  apply div_nonpos_of_nonpos_of_nonneg
  · linarith
  · linarith

/-- A fold by `min` over non-positive values stays non-positive. -/
theorem foldl_min_nonpos (xs : List ℚ) :
    ∀ x : ℚ, x ≤ 0 → xs.foldl min x ≤ 0 := by
  induction xs with
  | nil => intro x hx; simpa using hx
  | cons y rest ih =>
    intro x hx
    simp only [List.foldl_cons]
    exact ih (min x y) (le_trans (min_le_left x y) hx)

/-- A fold by `min` over zeros from zero is zero. -/
theorem foldl_min_zero (xs : List ℚ) (hxs : ∀ y ∈ xs, y = 0) :
    ∀ x : ℚ, x = 0 → xs.foldl min x = 0 := by
  induction xs with
  | nil => intro x hx; simpa using hx
  | cons y rest ih =>
    intro x hx
    simp only [List.foldl_cons]
    have hy : y = 0 := hxs y (List.mem_cons_self y rest)
    refine ih (fun z hz => hxs z (List.mem_cons_of_mem y hz)) (min x y) ?_
    rw [hx, hy]
    simp

/-- Partial products of factors at least 1 form an ascending chain from
the seed. -/
theorem chain_cumprodAux (xs : List ℚ) :
    ∀ acc : ℚ, 0 < acc → (∀ x ∈ xs, 1 ≤ x) →
      List.Chain (fun a b => a ≤ b) acc (cumprodAux acc xs) := by
  induction xs with
  | nil => intro acc _ _; rw [cumprodAux]; exact List.Chain.nil
  | cons x rest ih =>
    intro acc hacc hxs
    rw [cumprodAux]
    refine List.Chain.cons ?_ ?_
    · exact le_mul_of_one_le_right hacc.le (hxs x (List.mem_cons_self x rest))
    · refine ih (acc * x) ?_ (fun z hz => hxs z (List.mem_cons_of_mem x hz))
      have hx1 : (1 : ℚ) ≤ x := hxs x (List.mem_cons_self x rest)
      nlinarith

/-- The running maximum of an ascending chain is the chain itself. -/
theorem cummaxAux_eq_self (xs : List ℚ) :
    ∀ m : ℚ, List.Chain (fun a b => a ≤ b) m xs → cummaxAux m xs = xs := by
  induction xs with
  | nil => intro m _; rfl
  | cons x rest ih =>
    intro m hch
    cases hch with
    | cons hmx hrest =>
      rw [cummaxAux, max_eq_right hmx, ih x hrest]

/-- The running maximum of an ascending series is the series itself. -/
theorem cummax_eq_self (xs : List ℚ)
    (h : List.Chain' (fun a b => a ≤ b) xs) : cummax xs = xs := by
  cases xs with
  | nil => rfl
  | cons x rest =>
    rw [cummax, cummaxAux_eq_self rest x h]

/-- Pairs of a list zipped with itself are diagonal. -/
theorem zip_self_eq (l : List ℚ) : ∀ p ∈ l.zip l, p.1 = p.2 := by
  induction l with
  | nil => intro p hp; simp at hp
  | cons x r ih =>
    intro p hp
    rw [List.zip_cons_cons] at hp
    rcases List.mem_cons.mp hp with h | h
    · subst h; rfl
    · exact ih p h

/-- With non-negative returns every drawdown entry is zero. -/
theorem drawdowns_zero_of_monotone (r : List ℚ) (hr : ∀ x ∈ r, 0 ≤ x) :
    ∀ d ∈ drawdowns r, d = 0 := by
  intro d hd
  rw [drawdowns] at hd
  have hfac : ∀ y ∈ r.map (fun x => 1 + x), 1 ≤ y := by
    intro y hy
    obtain ⟨x, hx, rfl⟩ := List.mem_map.mp hy
    linarith [hr x hx]
  have hchain : List.Chain (fun a b => a ≤ b) 1 (cum_returns r) :=
    chain_cumprodAux _ 1 one_pos hfac
  have hchain' : List.Chain' (fun a b => a ≤ b) (cum_returns r) := by
    rcases hobs : cum_returns r with _ | ⟨g0, grest⟩
    · exact trivial
    · rw [hobs] at hchain
      cases hchain with
      | cons _ ht => exact ht
  rw [cummax_eq_self _ hchain'] at hd
  obtain ⟨p, hp, rfl⟩ := List.mem_map.mp hd
  rw [zip_self_eq _ p hp]
  simp

/-- Lengths are preserved by the running product. -/
theorem cumprodAux_length (xs : List ℚ) :
    ∀ acc : ℚ, (cumprodAux acc xs).length = xs.length := by
  induction xs with
  | nil => intro acc; rfl
  | cons x rest ih =>
    intro acc
    rw [cumprodAux]
    simp [ih]

/-- Lengths are preserved by the running maximum. -/
theorem cummaxAux_length (xs : List ℚ) :
    ∀ m : ℚ, (cummaxAux m xs).length = xs.length := by
  induction xs with
  | nil => intro m; rfl
  | cons x rest ih =>
    intro m
    rw [cummaxAux]
    simp [ih]

/-- The drawdown series has one entry per return observation. -/
theorem drawdowns_length (r : List ℚ) : (drawdowns r).length = r.length := by
  rw [drawdowns]
  have hg : (cum_returns r).length = r.length := by
    rw [cum_returns, cumprodAux_length]
    simp
  have hm : (cummax (cum_returns r)).length = (cum_returns r).length := by
    cases hobs : cum_returns r with
    | nil => rfl
    | cons g0 grest =>
      rw [cummax]
      simp [cummaxAux_length]
  simp [List.length_zip, hg, hm]

/-- Adjacent pairs of an ascending series are ordered. -/
theorem zip_tail_le (ps : List ℚ) (h : List.Chain' (fun a b => a ≤ b) ps) :
    ∀ p ∈ ps.zip ps.tail, p.1 ≤ p.2 := by
  induction ps with
  | nil => intro p hp; simp at hp
  | cons a rest ih =>
    intro p hp
    cases rest with
    | nil => simp at hp
    | cons b r2 =>
      rw [List.tail_cons, List.zip_cons_cons] at hp
      rcases List.mem_cons.mp hp with h1 | h1
      · subst h1
        exact (List.chain'_cons.mp h).1
      · exact ih (List.chain'_cons.mp h).2 p h1

/-- C6: on a price series of length at least 2 with positive prices, the
maximum drawdown (minimum of `(g - m)/m` over the running product `g` of
`1 + r` and its running maximum `m`, times 100) is defined, is always
non-positive, and is zero whenever the price series is monotonically
non-decreasing. -/
theorem C6_max_drawdown_nonpos (ps : List ℚ) (hlen : 2 ≤ ps.length)
    (hpos : ∀ x ∈ ps, 0 < x) :
    ∃ d, max_drawdown ps = some d ∧ d ≤ 0 ∧
      (List.Chain' (fun a b => a ≤ b) ps → d = 0) := by
  have hrlen : (drawdowns (daily_returns ps)).length = ps.length - 1 := by
    rw [drawdowns_length, daily_returns_length]
  have hdnonpos : ∀ d ∈ drawdowns (daily_returns ps), d ≤ 0 :=
    drawdowns_nonpos _ (daily_returns_gt_neg_one ps hpos)
  rcases hobs : drawdowns (daily_returns ps) with _ | ⟨d0, drest⟩
  · rw [hobs] at hrlen
    simp at hrlen
    omega
  · refine ⟨(drest.foldl min d0) * 100, ?_, ?_, ?_⟩
    · rw [max_drawdown, hobs]
      rfl
    · have h0 : d0 ≤ 0 := by
        refine hdnonpos d0 ?_
        rw [hobs]
        exact List.mem_cons_self d0 drest
      have hmin : drest.foldl min d0 ≤ 0 := foldl_min_nonpos drest d0 h0
      linarith
    · intro hmono
      have hadj : ∀ p ∈ ps.zip ps.tail, p.1 ≤ p.2 := zip_tail_le ps hmono
      have hret : ∀ x ∈ daily_returns ps, 0 ≤ x := by
        intro x hx
        rw [daily_returns] at hx
        obtain ⟨p, hp, rfl⟩ := List.mem_map.mp hx
        obtain ⟨a, b⟩ := p
        have ha : 0 < a := hpos a (List.of_mem_zip hp).1
        have hab : a ≤ b := hadj (a, b) hp
        have hdiv : 1 ≤ b / a := (one_le_div ha).mpr hab
        simp only
        linarith
      have hzero : ∀ d ∈ drawdowns (daily_returns ps), d = 0 :=
        drawdowns_zero_of_monotone _ hret
      have hd0 : d0 = 0 := by
        refine hzero d0 ?_
        rw [hobs]
        exact List.mem_cons_self d0 drest
      have hall : ∀ y ∈ drest, y = 0 := by
        intro y hy
        refine hzero y ?_
        rw [hobs]
        exact List.mem_cons_of_mem d0 hy
      rw [foldl_min_zero drest hall d0 hd0]
      simp

/-- Witness for C6 on the spec's example series [100, 110, 99, 121]. -/
theorem C6_witness :
    ∃ d, max_drawdown [(100 : ℚ), 110, 99, 121] = some d ∧ d ≤ 0 ∧
      (List.Chain' (fun a b => a ≤ b) [(100 : ℚ), 110, 99, 121] → d = 0) :=
  C6_max_drawdown_nonpos [(100 : ℚ), 110, 99, 121] (by decide) (by decide)

/-- Insertion grows the length by one. -/
theorem insertSorted_length (x : ℚ) (l : List ℚ) :
    (insertSorted x l).length = l.length + 1 := by
  induction l with
  | nil => rfl
  | cons y rest ih =>
    rw [insertSorted]
    by_cases h : x ≤ y
    · rw [if_pos h]
      simp
    · rw [if_neg h]
      simp [ih]

/-- Sorting preserves the length. -/
theorem sortList_length (xs : List ℚ) : (sortList xs).length = xs.length := by
  induction xs with
  | nil => rfl
  | cons x rest ih =>
    rw [sortList, List.foldr_cons]
    rw [show List.foldr insertSorted [] rest = sortList rest from rfl]
    rw [insertSorted_length, ih]
    rfl

/-- The numpy linear-interpolation percentile at q = 5 agrees with the
specification's order-statistic interpolation formula. -/
theorem npPercentile_eq_spec (xs : List ℚ) (hne : xs ≠ []) :
    npPercentile 5 xs = specPercentile5 xs := by
  have hempty : xs.isEmpty = false := by
    cases xs with
    | nil => exact absurd rfl hne
    | cons a l => rfl
  have hn1 : 1 ≤ (sortList xs).length := by
    rw [sortList_length]
    cases xs with
    | nil => exact absurd rfl hne
    | cons a l => simp
  simp only [npPercentile, specPercentile5, hempty, Bool.false_eq_true, if_false]
  generalize hs : sortList xs = s
  rw [hs] at hn1
  set p : ℚ := 5 / 100 * ((s.length : ℚ) - 1) with hp
  have hperm : ((s.length : ℚ) - 1) * 5 / 100 = p := by
    rw [hp]; ring
  have hpnn : 0 ≤ p := by
    rw [hp]
    have h1 : (1 : ℚ) ≤ (s.length : ℚ) := by exact_mod_cast hn1
    nlinarith
  have hfl : (0 : ℤ) ≤ ⌊p⌋ := Int.floor_nonneg.mpr hpnn
  have hcastQ : ((⌊p⌋.toNat : ℚ)) = ((⌊p⌋ : ℚ)) := by
    have h2 : ((⌊p⌋.toNat : ℤ)) = ⌊p⌋ := Int.toNat_of_nonneg hfl
    exact_mod_cast h2
  rw [hperm]
  by_cases hint : ((⌊p⌋ : ℚ)) = p
  · congr 1
    rw [hcastQ, hint]
    ring
  · have hlt : ((⌊p⌋ : ℚ)) < p := lt_of_le_of_ne (Int.floor_le p) hint
    have hn2 : 2 ≤ s.length := by
      rcases Nat.lt_or_ge s.length 2 with h2 | h2
      · exfalso
        apply hint
        have hone : s.length = 1 := by omega
        rw [hp, hone]
        norm_num
      · exact h2
    have hplt : p < (s.length : ℚ) - 1 := by
      rw [hp]
      have h3 : (2 : ℚ) ≤ (s.length : ℚ) := by exact_mod_cast hn2
      nlinarith
    have hflt : ⌊p⌋ < (s.length : ℤ) - 1 := by
      have h4 : ((⌊p⌋ : ℚ)) < (s.length : ℚ) - 1 :=
        lt_of_le_of_lt (Int.floor_le p) hplt
      exact_mod_cast h4
    have hceil : ⌈p⌉ = ⌊p⌋ + 1 := by
      refine le_antisymm (Int.ceil_le_floor_add_one p) ?_
      have h5 : ⌊p⌋ < ⌈p⌉ := by
        have h6 : ((⌊p⌋ : ℚ)) < ((⌈p⌉ : ℚ)) := lt_of_lt_of_le hlt (Int.le_ceil p)
        exact_mod_cast h6
      omega
    have hj : ⌈p⌉.toNat = ⌊p⌋.toNat + 1 := by omega
    have hmin : min (⌊p⌋.toNat + 1) (s.length - 1) = ⌊p⌋.toNat + 1 := by omega
    rw [hj, hmin, hcastQ]
    congr 1
    ring

/-- C7: for every non-empty daily-return series, the script's
`VaR_95 = np.percentile(daily_returns, 5) * 100` equals the 5th
percentile computed by linear interpolation between order statistics,
expressed as a percentage. -/
theorem C7_var95_linear_percentile (ps : List ℚ)
    (hne : daily_returns ps ≠ []) :
    VaR_95 ps = (specPercentile5 (daily_returns ps)).map (fun v => v * 100) := by
  rw [VaR_95, npPercentile_eq_spec _ hne]

/-- Witness for C7 on the spec's example series. -/
theorem C7_witness :
    VaR_95 [(100 : ℚ), 110, 99, 121] =
      (specPercentile5 (daily_returns [(100 : ℚ), 110, 99, 121])).map
        (fun v => v * 100) :=
  C7_var95_linear_percentile [(100 : ℚ), 110, 99, 121] (by decide)

/-- Counterexample to C3 as stated: on a one-row table whose benchmark
column is entirely missing, cleaning leaves zero rows (with both ticker
columns still present), yet the script does not signal DataUnavailable —
it proceeds past both checks and crashes at the first-row access. -/
theorem C3_counterexample :
    (alignAndClean ⟨[("F", [some 100]), ("B", [none])]⟩).nRows = 0 ∧
    (runScript ["F", "B"] ⟨[("F", [some 100]), ("B", [none])]⟩).isDataUnavailableStop
      = false ∧
    runScript ["F", "B"] ⟨[("F", [some 100]), ("B", [none])]⟩ = Outcome.crashed :=
  ⟨rfl, rfl, rfl⟩

/-- C3 (amended): the script signals DataUnavailable exactly when the raw
download is empty or a required ticker's column is absent after cleaning;
the zero-rows-after-cleaning case with both columns present is not
caught (it crashes later instead). -/
theorem C3_amended_data_unavailable (tickers : List String) (d : RawFrame)
    (h : d.isEmpty = true ∨ missingOf tickers d ≠ []) :
    (runScript tickers d).isDataUnavailableStop = true := by
  unfold runScript
  rcases h with h | h
  · rw [if_pos h]
    rfl
  · by_cases he : d.isEmpty = true
    · rw [if_pos he]
      rfl
    · rw [if_neg he, if_pos]
      · rfl
      · rcases hm : missingOf tickers d with _ | ⟨a, l⟩
        · exact absurd hm h
        · rfl

/-- Witness for the amended C3: the benchmark ticker has no column at
all, and the run stops with a DataUnavailable error. -/
theorem C3_witness :
    (runScript ["F", "B"] ⟨[("F", [some 1])]⟩).isDataUnavailableStop = true :=
  C3_amended_data_unavailable ["F", "B"] ⟨[("F", [some 1])]⟩ (Or.inr (by decide))

/-- Counterexample to C4 as stated: on the single-point series [100] the
risk computation neither signals InsufficientHistory nor returns
zero-defaults: the daily-return series is empty, volatility and max
drawdown are NaN and the VaR percentile call raises (all modelled as
`none`). -/
theorem C4_counterexample :
    riskMetrics [(100 : ℚ)] = (none, none, none) ∧
    riskMetrics [(100 : ℚ)] ≠ (some 0, some 0, some 0) := by
  have h1 : riskMetrics [(100 : ℚ)] = (none, none, none) := rfl
  refine ⟨h1, ?_⟩
  rw [h1]
  simp

/-- C4 (amended): on a tracked-instrument price series of length below 2
the code does not signal and does not substitute defaults: the
daily-return series is empty and all three risk metrics are undefined
(volatility and drawdown NaN, the percentile call raises), while the
return and normalization computations still succeed on such a series
(a singleton series yields return 0 and normalized value 100). -/
theorem C4_amended_no_signal (ps : List ℚ) (p : ℚ)
    (h : ps.length < 2) (hp : 0 < p) :
    riskMetrics ps = (none, none, none) ∧
    returnCol [p] = 0 ∧ normCol [p] = [100] := by
  have hr : daily_returns ps = [] := by
    cases ps with
    | nil => rfl
    | cons a rest =>
      cases rest with
      | nil => rfl
      | cons b r2 =>
        simp only [List.length_cons] at h
        omega
  refine ⟨?_, ?_, ?_⟩
  · unfold riskMetrics volatility max_drawdown VaR_95
    rw [hr]
    rfl
  · unfold returnCol
    have hone : [p].getLastD 0 = p := rfl
    simp only [hone, List.headD_cons]
    rw [sub_self, zero_div, zero_mul]
    unfold round2 roundHalfEven
    norm_num
  · unfold normCol
    simp only [List.map_cons, List.map_nil, List.headD_cons]
    rw [div_self (ne_of_gt hp)]
    norm_num

/-- Witness for the amended C4 at the singleton series [100]. -/
theorem C4_witness :
    riskMetrics [(100 : ℚ)] = (none, none, none) ∧
    returnCol [(100 : ℚ)] = 0 ∧ normCol [(100 : ℚ)] = [100] :=
  C4_amended_no_signal [(100 : ℚ)] 100 (by decide) (by decide)

/-- C8: the fetch range is [Jan 1 of the current year, today] for YTD and
[today minus 1, 3 or 5 calendar years (day clamped to the target month's
length), today] for 1Y, 3Y, 5Y. -/
theorem C8_horizon_ranges (t : Date) :
    fetchRange t "YTD" = (⟨t.year, 1, 1⟩, t) ∧
    fetchRange t "1Y" =
      (⟨t.year - 1, t.month, min t.day (daysInMonth (t.year - 1) t.month)⟩, t) ∧
    fetchRange t "3Y" =
      (⟨t.year - 3, t.month, min t.day (daysInMonth (t.year - 3) t.month)⟩, t) ∧
    fetchRange t "5Y" =
      (⟨t.year - 5, t.month, min t.day (daysInMonth (t.year - 5) t.month)⟩, t) :=
  ⟨rfl, rfl, rfl, rfl⟩

/-- C9: every engine operation of the embedding is a total function of
its declared inputs (the Python transforms read nothing but their inputs
and mutate no shared state), so two invocations on identical inputs give
identical outputs. -/
theorem C9_operations_deterministic (d1 d2 : RawFrame) (f1 f2 : Frame)
    (s1 s2 : List ℚ) (t1 t2 : List String)
    (hd : d1 = d2) (hf : f1 = f2) (hs : s1 = s2) (ht : t1 = t2) :
    alignAndClean d1 = alignAndClean d2 ∧
    norm_data f1 = norm_data f2 ∧
    snapshot_returns f1 = snapshot_returns f2 ∧
    riskMetrics s1 = riskMetrics s2 ∧
    runScript t1 d1 = runScript t2 d2 := by
  subst hd
  subst hf
  subst hs
  subst ht
  exact ⟨rfl, rfl, rfl, rfl, rfl⟩

/-- Witness for C9 on concrete inputs. -/
theorem C9_witness :
    alignAndClean ⟨[("F", [some 1, some 2])]⟩ =
      alignAndClean ⟨[("F", [some 1, some 2])]⟩ ∧
    norm_data ⟨[("F", [1, 2])]⟩ = norm_data ⟨[("F", [1, 2])]⟩ ∧
    snapshot_returns ⟨[("F", [1, 2])]⟩ = snapshot_returns ⟨[("F", [1, 2])]⟩ ∧
    riskMetrics [1, 2] = riskMetrics [1, 2] ∧
    runScript ["F"] ⟨[("F", [some 1, some 2])]⟩ =
      runScript ["F"] ⟨[("F", [some 1, some 2])]⟩ :=
  C9_operations_deterministic _ _ _ _ _ _ _ _ rfl rfl rfl rfl

/-- C10 (implicit): any horizon string other than YTD, 1Y, 3Y, 5Y falls
through the final `else` and uses the YTD start, January 1 of the current
year, rather than failing. -/
theorem C10_fallback_to_ytd (t : Date) (h : String)
    (h1 : h ≠ "YTD") (h2 : h ≠ "1Y") (h3 : h ≠ "3Y") (h4 : h ≠ "5Y") :
    startDate t h = ⟨t.year, 1, 1⟩ := by
  unfold startDate
  rw [if_neg h1, if_neg h2, if_neg h3, if_neg h4]

/-- Witness for C10 at the unrecognized horizon "2Y". -/
theorem C10_witness : startDate ⟨2026, 10, 12⟩ "2Y" = ⟨2026, 1, 1⟩ :=
  C10_fallback_to_ytd ⟨2026, 10, 12⟩ "2Y" (by decide) (by decide) (by decide)
    (by decide)
